import Mathlib

/-!
Verification of the melonJS object utilities (src/object.js).

The file shallowly embeds the three utilities of object.js:

* the class-extension utility installed as Object.prototype.extend
  (lines 206-268 of object.js), together with the Class constructor
  (lines 216-234), apply_methods (lines 240-249) and the per-instance
  _super dispatch helper (lines 222-227);
* the mixin helper installed as Object.prototype.mixin (lines 48-66);
* the Function.prototype.bind fallback (lines 114-140).

Objects are modelled as association tables from property names to
property slots.  A slot records its value together with its writable
attribute, because object.js defines prototype methods through
Object.defineProperty with only the configurable and value fields
(line 244-247), which leaves writable false; later plain assignments
(line 260 for the constructor marker, line 222 for the per-instance
_super helper, line 58 inside mixin) follow sloppy-mode assignment
semantics and therefore fail silently whenever a non-writable own or
inherited data property with the assigned name exists.  Method values
are drawn from an abstract type M; prototype slots additionally carry
the synthesized class function (identified by a numeric tag) and the
per-instance _super helper.  Invoking a function is modelled by the
triple of the invoked implementation, its receiver and its argument
list, since the claims under verification only constrain which
implementation runs, on which receiver, with which arguments.
-/

namespace MelonJS

/-- Table models the own enumerable data properties of a JS object as an
association list in insertion order (JS objects keep string keys in
insertion order and never hold a key twice). -/
abbrev Table (V : Type) := List (String × V)

/-- tlookup models reading an own property: the first entry with the
requested key, if any.  Tables built by the operations below never hold
a key twice, so the first entry is the only one. -/
def tlookup {V : Type} : Table V → String → Option V
  | [], _ => none
  | (kk, v) :: rest, k => if kk = k then some v else tlookup rest k

/-- assign models writing a property slot on a JS object: an existing
entry keeps its position and gets the new value, otherwise the entry is
appended, matching JS insertion-order key semantics. -/
def assign {V : Type} : Table V → String → V → Table V
  | [], k, v => [(k, v)]
  | (kk, vv) :: rest, k, v =>
    if kk = k then (kk, v) :: rest else (kk, vv) :: assign rest k v

/-- chainLookup models property lookup along a prototype chain, given as
the list of own-property tables from the nearest object outward: the
nearest table holding the key wins. -/
def chainLookup {V : Type} : List (Table V) → String → Option V
  | [], _ => none
  | t :: rest, k =>
    match tlookup t k with
    | some v => some v
    | none => chainLookup rest k

/-- PropD is a property slot: its value and its writable attribute.
Slots created by Object.defineProperty in apply_methods (lines 244-247
of object.js) have writable false; slots created by plain assignment
have writable true. -/
structure PropD (V : Type) where
  value : V
  writable : Bool
deriving DecidableEq, Repr

/-- PValue is the universe of values stored on prototypes and instances
by object.js: a user-supplied method, the synthesized Class function of
some extend call (tagged by a numeric identity), the per-instance
_super dispatch helper created on line 222, or one of the two helper
functions this file itself installs on Object.prototype (the mixin
helper of lines 48-66 and the extend helper of line 206, tagged by
their names).  All of these are JS function objects, hence truthy. -/
inductive PValue (M : Type) where
  | method (m : M)
  | classFn (id : Nat)
  | superFn
  | builtin (tag : String)
deriving DecidableEq, Repr

/-- PTable is the own-property table of a prototype or instance. -/
abbrev PTable (M : Type) := Table (PropD (PValue M))

/-- defineProp models Object.defineProperty(obj, key, (configurable:
true, value: v)) as used by apply_methods on lines 244-247: the slot is
created or redefined with the given value and, the writable field being
absent, with writable false (redefinition of a slot that apply_methods
itself created earlier also leaves writable false unchanged). -/
def defineProp {M : Type} (t : PTable M) (k : String) (v : PValue M) : PTable M :=
  assign t k ⟨v, false⟩

/-- canPut models the sloppy-mode assignability test for obj.k = v where
obj has own table own and prototype chain chain: an own data property
must be writable; otherwise an inherited data property must be writable;
an absent property can always be created. -/
def canPut {V : Type} (own : Table (PropD V)) (chain : List (Table (PropD V)))
    (k : String) : Bool :=
  match tlookup own k with
  | some d => d.writable
  | none =>
    match chainLookup chain k with
    | some d => d.writable
    | none => true

/-- jsAssign models the sloppy-mode assignment obj.k = v: when canPut
holds the own slot is created or updated with writable true, otherwise
the assignment fails silently and the object is unchanged. -/
def jsAssign {V : Type} (own : Table (PropD V)) (chain : List (Table (PropD V)))
    (k : String) (v : V) : Table (PropD V) :=
  if canPut own chain k then assign own k ⟨v, true⟩ else own

/-- pGet reads the value of an own property slot, dropping attributes,
as a JS property read does. -/
def pGet {V : Type} (t : Table (PropD V)) (k : String) : Option V :=
  (tlookup t k).map PropD.value

/-- chainGet reads a property value along a prototype chain. -/
def chainGet {V : Type} (l : List (Table (PropD V))) (k : String) : Option V :=
  (chainLookup l k).map PropD.value

/-- objectProto is the own-property table of Object.prototype as this
file leaves it: the mixin helper (lines 48-66) and the extend helper
(line 206), both installed through Object.defineProperty with no
writable field and hence non-writable (and non-enumerable, which is why
neither name is visited by for-in over user objects).  Native
Object.prototype members (constructor, hasOwnProperty, ...) are all
writable and none of them collides with a name any claim touches, so
they are not modelled. -/
def objectProto {M : Type} : PTable M :=
  [("mixin", ⟨PValue.builtin "mixin", false⟩),
   ("extend", ⟨PValue.builtin "extend", false⟩)]

/-- JSClass is a class as produced by Object.prototype.extend (lines
206-268 of object.js): the identity tag of the synthesized Class
function, the own-property table of the fresh Class.prototype object,
the prototype chain above it (nearest ancestor first, ending at
Object.prototype), and the hidden __methods__ registry defined on the
class on lines 263-265: the plain object of line 208, populated only by
the sloppy-mode assignments methods[key] = descriptor[key] of line 242,
whose own slots are therefore all writable. -/
structure JSClass (M : Type) where
  clsId : Nat
  protoOwn : PTable M
  parentChain : List (PTable M)
  methods : Table (PropD M)
deriving DecidableEq, Repr

/-- ObjectClass models the built-in Object root: its prototype holds
the two non-writable helpers this file installs, its chain ends there,
and it has no __methods__ registry (no claim passes Object itself as a
mixin). -/
def ObjectClass {M : Type} : JSClass M :=
  { clsId := 0, protoOwn := objectProto, parentChain := [], methods := [] }

/-- MixinArg is one argument of an extend call: either a plain mixin
descriptor (a dictionary of methods) or a previously extended class. -/
inductive MixinArg (M : Type) where
  | desc (d : Table M)
  | cls (c : JSClass M)
deriving DecidableEq

/-- ownValues reads a registry object the way apply_methods consumes a
descriptor: Object.keys over its own (all enumerable) slots in
insertion order, each value read off its slot. -/
def ownValues {M : Type} (t : Table (PropD M)) : Table M :=
  t.map (fun kv => (kv.1, kv.2.value))

/-- effectiveDesc models line 256 of object.js, mixin.__methods__ ||
mixin: a class argument contributes the contents of its hidden
merged-method registry (always a truthy object), a plain descriptor
contributes itself. -/
def effectiveDesc {M : Type} : MixinArg M → Table M
  | .desc d => d
  | .cls c => ownValues c.methods

/-- canPutRegistry is the sloppy-mode assignability test for
methods[key] = v on the registry object of line 208: a plain object
whose prototype is Object.prototype, so an absent own slot defers to
the objectProto slot of that name — in particular the non-writable
mixin and extend helpers block the write.  This is canPut specialized
to the chain consisting of objectProto (whose own chain is null). -/
def canPutRegistry {M : Type} (t : Table (PropD M)) (k : String) : Bool :=
  match tlookup t k with
  | some d => d.writable
  | none =>
    match tlookup (objectProto : PTable M) k with
    | some d => d.writable
    | none => true

/-- methodsAssign models the sloppy-mode assignment methods[key] =
descriptor[key] of line 242: when assignable the own slot is created or
updated with writable true, otherwise the write fails silently. -/
def methodsAssign {M : Type} (t : Table (PropD M)) (k : String) (v : M) :
    Table (PropD M) :=
  if canPutRegistry t k then assign t k ⟨v, true⟩ else t

/-- apply_methods models the apply_methods closure of object.js (lines
240-249): for each key of the descriptor in order, the pair of the
methods registry after the sloppy-mode assignment methods[key] =
descriptor[key] and the class prototype after
Object.defineProperty(Class.prototype, key, (configurable: true,
value: descriptor[key])).  Descriptors are JS objects, so each key
occurs once and the entry value is descriptor[key]. -/
def apply_methods {M : Type} (acc : Table (PropD M) × PTable M)
    (descriptor : Table M) : Table (PropD M) × PTable M :=
  descriptor.foldl
    (fun a kv =>
      (methodsAssign a.1 kv.1 kv.2, defineProp a.2 kv.1 (PValue.method kv.2)))
    acc

/-- applyAll folds apply_methods over all mixin arguments (lines
255-257 of object.js), starting from the empty methods registry of line
208 and the fresh empty prototype of line 252. -/
def applyAll {M : Type} (mixins : List (MixinArg M)) :
    Table (PropD M) × PTable M :=
  mixins.foldl (fun acc mx => apply_methods acc (effectiveDesc mx)) ([], [])

/-- extend models Object.prototype.extend (lines 206-268 of object.js)
invoked on the parent class with the given mixin arguments, the fresh
Class function carrying the identity tag clsId.  The fresh prototype is
created by Object.create over the parent prototype (line 252), all mixin
methods are applied (lines 255-257), and line 260 assigns
Class.prototype.constructor = Class.prototype.init || Class, a plain
sloppy-mode assignment on the fresh prototype whose init read walks the
new prototype chain. -/
def extend {M : Type} (clsId : Nat) (parent : JSClass M)
    (mixins : List (MixinArg M)) : JSClass M :=
  let applied := applyAll mixins
  let parentChain := parent.protoOwn :: parent.parentChain
  let ctor := (chainGet (applied.2 :: parentChain) "init").getD (PValue.classFn clsId)
  { clsId := clsId,
    protoOwn := jsAssign applied.2 parentChain "constructor" ctor,
    parentChain := parentChain,
    methods := applied.1 }

/-- Instance is an object created by new Class(...): its own property
table and its prototype chain, which starts at the class prototype. -/
structure Instance (M : Type) where
  own : PTable M
  chain : List (PTable M)
deriving DecidableEq, Repr

/-- instGet reads a property value on an instance: own properties first,
then the prototype chain. -/
def instGet {M : Type} (inst : Instance M) (k : String) : Option (PValue M) :=
  chainGet (inst.own :: inst.chain) k

/-- newInstance models new Class(args) for a class built by extend,
following the Class constructor body on lines 216-234 of object.js: the
fresh instance first receives this._super = (helper) by a sloppy-mode
assignment (line 222), which fails silently if a non-writable _super is
inherited; then, if this.init resolves to a (truthy) value, that value
is invoked with the instance as receiver and the callers arguments
(lines 230-232).  The second component records that invocation: the
resolved initializer together with the argument list it is applied to,
the receiver being the returned instance itself. -/
def newInstance {M A : Type} (C : JSClass M) (args : List A) :
    Instance M × Option (PValue M × List A) :=
  let chain := C.protoOwn :: C.parentChain
  let own0 := jsAssign [] chain "_super" PValue.superFn
  let inst : Instance M := { own := own0, chain := chain }
  (inst, (instGet inst "init").map (fun f => (f, args)))

/-- superCall models the body of the per-instance _super helper (lines
222-227 of object.js) invoked on instance inst as
this._super(superClass, method, args...): it reads
superClass.prototype[method] along the prototype chain of the named
class and applies the found implementation to the current instance with
the remaining arguments.  The result records the invocation as
(implementation, receiver, arguments); none models the missing-member
fault the host raises when the named class chain lacks the method. -/
def superCall {M A : Type} (inst : Instance M) (superClass : JSClass M)
    (method : String) (args : List A) : Option (PValue M × Instance M × List A) :=
  (chainGet (superClass.protoOwn :: superClass.parentChain) method).map
    (fun f => (f, inst, args))

/-- mergedDescs is the plain argument-order later-wins merge of a list
of descriptors: the dictionary the defineProperty side of apply_methods
realizes on the fresh prototype (defineProperty never fails there). -/
def mergedDescs {M : Type} (ds : List (Table M)) : Table M :=
  ds.foldl (fun m d => d.foldl (fun mm kv => assign mm kv.1 kv.2) m) []

/-- mergedRegistry is the registry content the assignments of line 242
accumulate over the same descriptors: the same argument-order merge,
except that every write goes through sloppy-mode assignment and is
silently dropped when blocked by a non-writable Object.prototype slot
(the mixin and extend helpers). -/
def mergedRegistry {M : Type} (ds : List (Table M)) : Table (PropD M) :=
  ds.foldl (fun m d => d.foldl (fun mm kv => methodsAssign mm kv.1 kv.2) m) []

/-- NodupKeys states that a table holds each key at most once, as every
genuine JS object does. -/
def NodupKeys {V : Type} (t : Table V) : Prop := (t.map Prod.fst).Nodup

/-- wrapM turns a plain method dictionary into the prototype table that
defining every entry through apply_methods produces: same keys in the
same order, every slot non-writable. -/
def wrapM {M : Type} (t : Table M) : PTable M :=
  t.map (fun kv => (kv.1, ⟨PValue.method kv.2, false⟩))

/-- SrcObj is the source object handed to Object.prototype.mixin: its
own enumerable data properties and the enumerable data properties of
its prototype chain (values only; attributes of the source are never
consulted by mixin). -/
structure SrcObj (M : Type) where
  own : Table M
  chain : List (Table M)
deriving DecidableEq

/-- RecvObj is the receiver of Object.prototype.mixin: its own property
slots (with attributes, since assignment consults writable) and its
prototype chain. -/
structure RecvObj (M : Type) where
  own : Table (PropD M)
  chain : List (Table (PropD M))
deriving DecidableEq

/-- hasOwnProperty models obj.hasOwnProperty(k) on a source object. -/
def hasOwnProperty {M : Type} (o : SrcObj M) (k : String) : Bool :=
  (tlookup o.own k).isSome

/-- srcGet models the property read obj[k] on a source object. -/
def srcGet {M : Type} (o : SrcObj M) (k : String) : Option M :=
  chainLookup (o.own :: o.chain) k

/-- allKeys collects the keys of a list of tables in order. -/
def allKeys {V : Type} : List (Table V) → List String
  | [] => []
  | t :: rest => t.map Prod.fst ++ allKeys rest

/-- enumKeys removes later duplicates from a key list, keeping first
occurrences, the way for-in visits each property name once even when a
prototype entry is shadowed. -/
def enumKeys (ks : List String) : List String :=
  ks.foldl (fun acc k => if k ∈ acc then acc else acc ++ [k]) []

/-- forInKeys models the for-in enumeration order over a source object:
own enumerable keys in insertion order, then prototype keys not already
visited. -/
def forInKeys {M : Type} (o : SrcObj M) : List String :=
  enumKeys (allKeys (o.own :: o.chain))

/-- mixinStep models one for-in iteration of the mixin body (lines
54-60 of object.js): if the current name is an own property of the
source, self[i] = obj[i] is performed as a sloppy-mode assignment on
the receiver, otherwise the name is skipped. -/
def mixinStep {M : Type} (o : SrcObj M) (chain : List (Table (PropD M)))
    (acc : Table (PropD M)) (k : String) : Table (PropD M) :=
  if hasOwnProperty o k then
    match srcGet o k with
    | some v => jsAssign acc chain k v
    | none => acc
  else acc

/-- mixinFn models Object.prototype.mixin (lines 48-66 of object.js)
invoked on a receiver with identity selfId: for-in over the source,
copying own properties by assignment, then return this.  The result is
the returned reference (unchanged identity) paired with the updated own
table of the receiver. -/
def mixinFn {M : Type} (selfId : Nat) (self : RecvObj M) (obj : SrcObj M) :
    Nat × Table (PropD M) :=
  (selfId, (forInKeys obj).foldl (mixinStep obj self.chain) self.own)

/-- CallRec records one function invocation: the implementation that
runs, the receiver it is applied to, and its argument list. -/
structure CallRec (F C A : Type) where
  target : F
  thisArg : C
  args : List A
deriving DecidableEq, Repr

/-- JSFunVal is a value the bind fallback may be invoked on: a genuine
function, or any non-callable value rendered by its string form in the
thrown message. -/
inductive JSFunVal (F : Type) where
  | fn (f : F)
  | nonCallable (tag : String)
deriving DecidableEq

/-- typeofIsFunction models the typeof target !== "function" test of
line 119 of object.js (as the positive test). -/
def typeofIsFunction {F : Type} : JSFunVal F → Bool
  | .fn _ => true
  | .nonCallable _ => false

/-- bindShim models Function.prototype.bind of object.js (lines
114-140) up to the creation of the bound wrapper: on a non-callable
receiver it throws the TypeError of line 120; on a function it captures
the target, the bound context, and the curried arguments sliced from
the call (line 122). -/
def bindShim {F C A : Type} : JSFunVal F → C → List A → Except String (F × C × List A)
  | .fn f, that, curried => .ok (f, that, curried)
  | .nonCallable tag, _, _ =>
    .error ("TypeError: Function.prototype.bind called on incompatible " ++ tag)

/-- boundBody models the body of the bound wrapper (lines 123-133 of
object.js).  The wrapper branches on this instanceof bound: a plain
call passes undefined (or the global object) as this, which is not an
instance of bound, so the else branch applies the target to the bound
context; a construction with new creates a fresh object whose prototype
is bound.prototype (set up on lines 134-138), so the test holds and the
target is applied to that fresh object, ignoring the bound context.
The thisArg parameter carries the fresh object in the construction
case and nothing in the plain-call case.  Either way the curried
arguments are prepended to the call arguments (args.concat on lines
125 and 131). -/
def boundBody {F C A : Type} (target : F) (that : C) (curried : List A)
    (thisArg : Option C) (callArgs : List A) : CallRec F C A :=
  match thisArg with
  | some fresh => { target := target, thisArg := fresh, args := curried ++ callArgs }
  | none => { target := target, thisArg := that, args := curried ++ callArgs }

/-- HObj is a heap object for the heap-level model of extend: its
prototype reference and its own slots. -/
structure HObj (M : Type) where
  protoRef : Option Nat
  props : PTable M
deriving DecidableEq

/-- HeapSt is a heap: a store from object identities to objects and the
next fresh identity. -/
structure HeapSt (M : Type) where
  mem : Nat → HObj M
  next : Nat

/-- allocObj allocates a fresh object, returning the new heap and the
identity of the allocation. -/
def allocObj {M : Type} (h : HeapSt M) (o : HObj M) : HeapSt M × Nat :=
  ({ mem := fun j => if j = h.next then o else h.mem j, next := h.next + 1 }, h.next)

/-- updProps rewrites the own slots of one heap object, leaving its
prototype reference and every other object untouched. -/
def updProps {M : Type} (h : HeapSt M) (i : Nat) (f : PTable M → PTable M) : HeapSt M :=
  { mem := fun j =>
      if j = i then { protoRef := (h.mem i).protoRef, props := f (h.mem i).props }
      else h.mem j,
    next := h.next }

/-- hChainLookup walks a prototype-reference chain in the heap, with
fuel bounding the walk (any fuel at least the chain length is exact;
heaps built by the operations here have no reference cycles). -/
def hChainLookup {M : Type} (h : HeapSt M) :
    Nat → Option Nat → String → Option (PropD (PValue M))
  | 0, _, _ => none
  | _ + 1, none, _ => none
  | fuel + 1, some i, k =>
    match tlookup (h.mem i).props k with
    | some d => some d
    | none => hChainLookup h fuel (h.mem i).protoRef k

/-- hCanPutObj is the heap-level sloppy-mode assignability test on the
object at identity i. -/
def hCanPutObj {M : Type} (h : HeapSt M) (fuel : Nat) (i : Nat) (k : String) : Bool :=
  match tlookup (h.mem i).props k with
  | some d => d.writable
  | none =>
    match hChainLookup h fuel (h.mem i).protoRef k with
    | some d => d.writable
    | none => true

/-- applyEntryH performs one descriptor entry at the heap level: the
sloppy-mode registry assignment methods[key] = descriptor[key] (line
242), which consults the writability of the own slot or, failing that,
of the chain the registry inherits (Object.prototype, carrying the
non-writable mixin and extend helpers) and fails silently when blocked,
followed by the defineProperty of lines 244-247 on the fresh prototype
(non-writable slot, never blocked).  The lookup fuel hh.next bounds
every chain the heap can hold acyclically. -/
def applyEntryH {M : Type} (methodsId protoId : Nat) (hh : HeapSt M)
    (kv : String × M) : HeapSt M :=
  updProps
    (if hCanPutObj hh hh.next methodsId kv.1
     then updProps hh methodsId
       (fun t => assign t kv.1 ⟨PValue.method kv.2, true⟩)
     else hh)
    protoId
    (fun t => assign t kv.1 ⟨PValue.method kv.2, false⟩)

/-- applyDescsH is the heap-level counterpart of lines 255-257 of
object.js: every descriptor in argument order, entry by entry through
applyEntryH. -/
def applyDescsH {M : Type} (methodsId protoId : Nat) (h : HeapSt M)
    (descs : List (Table M)) : HeapSt M :=
  descs.foldl (fun hh d => d.foldl (applyEntryH methodsId protoId) hh) h

/-- extendH is the heap-level model of one extend call (lines 206-268
of object.js), mutating an explicit heap: it allocates the fresh
methods registry (line 208; a plain object, so its prototype is the
Object.prototype object living at objectProtoId) and the fresh
prototype chained to the parent prototype (line 252), applies every
descriptor (lines 255-257) under sloppy-mode registry assignment, and
performs the constructor assignment of line 260 under sloppy-mode
assignment semantics.  It returns the new heap together with the
identities of the fresh prototype and the fresh registry. -/
def extendH {M : Type} (h : HeapSt M) (parentProtoId objectProtoId : Nat)
    (clsId : Nat) (descs : List (Table M)) : HeapSt M × Nat × Nat :=
  let p1 := allocObj h { protoRef := some objectProtoId, props := [] }
  let methodsId := p1.2
  let p2 := allocObj p1.1 { protoRef := some parentProtoId, props := [] }
  let protoId := p2.2
  let h3 := applyDescsH methodsId protoId p2.1 descs
  let ctor := ((hChainLookup h3 h3.next (some protoId) "init").map PropD.value).getD
    (PValue.classFn clsId)
  let h4 :=
    if hCanPutObj h3 h3.next protoId "constructor"
    then updProps h3 protoId (fun t => assign t "constructor" ⟨ctor, true⟩)
    else h3
  (h4, protoId, methodsId)

/-- Built characterizes the classes the repository can actually produce:
the Object root, and any extend of an already produced class.  Mixin
arguments are unconstrained because they only contribute method
dictionaries. -/
inductive Built {M : Type} : JSClass M → Prop where
  | base : Built ObjectClass
  | step (clsId : Nat) (P : JSClass M) (mixins : List (MixinArg M)) :
      Built P → Built (extend clsId P mixins)

theorem tlookup_assign_self {V : Type} (t : Table V) (k : String) (v : V) :
    tlookup (assign t k v) k = some v := by
  induction t with
  | nil => simp [assign, tlookup]
  | cons kv rest ih =>
    obtain ⟨kk, vv⟩ := kv
    by_cases h : kk = k
    · subst h; simp [assign, tlookup]
    · simp [assign, tlookup, h, ih]

theorem tlookup_assign_other {V : Type} (t : Table V) (kk k : String) (v : V)
    (h : kk ≠ k) : tlookup (assign t kk v) k = tlookup t k := by
  induction t with
  | nil => simp [assign, tlookup, h]
  | cons kv rest ih =>
    obtain ⟨k0, v0⟩ := kv
    by_cases h0 : k0 = kk
    · subst h0; simp [assign, tlookup, h]
    · by_cases h1 : k0 = k
      · subst h1; simp [assign, tlookup, h0]
      · simp [assign, tlookup, h0, h1, ih]

theorem tlookup_mem_keys {V : Type} {t : Table V} {k : String} {v : V}
    (h : tlookup t k = some v) : k ∈ t.map Prod.fst := by
  induction t with
  | nil => simp [tlookup] at h
  | cons kv rest ih =>
    obtain ⟨k0, v0⟩ := kv
    by_cases h0 : k0 = k
    · subst h0; simp
    · simp [tlookup, h0] at h
      simp [ih h]

theorem not_mem_keys_tlookup {V : Type} {t : Table V} {k : String}
    (h : k ∉ t.map Prod.fst) : tlookup t k = none := by
  induction t with
  | nil => simp [tlookup]
  | cons kv rest ih =>
    obtain ⟨k0, v0⟩ := kv
    have h0 : ¬ k0 = k := fun hh => h (by simp [hh])
    have h1 : k ∉ rest.map Prod.fst := fun hh => h (by simp [hh])
    simp [tlookup, h0, ih h1]

theorem keys_assign_of_mem {V : Type} {t : Table V} {k : String} (v : V)
    (h : k ∈ t.map Prod.fst) : (assign t k v).map Prod.fst = t.map Prod.fst := by
  induction t with
  | nil => simp at h
  | cons kv rest ih =>
    obtain ⟨k0, v0⟩ := kv
    by_cases h0 : k0 = k
    · subst h0; simp [assign]
    · have hk : k ∈ rest.map Prod.fst := by
        rcases List.mem_cons.mp h with hh | hh
        · exact absurd hh.symm (by simpa using h0)
        · simpa using hh
      simp [assign, h0, ih hk]

theorem keys_assign_of_not_mem {V : Type} {t : Table V} {k : String} (v : V)
    (h : k ∉ t.map Prod.fst) :
    (assign t k v).map Prod.fst = t.map Prod.fst ++ [k] := by
  induction t with
  | nil => simp [assign]
  | cons kv rest ih =>
    obtain ⟨k0, v0⟩ := kv
    have h0 : ¬ k0 = k := fun hh => h (by simp [hh])
    have h1 : k ∉ rest.map Prod.fst := fun hh => h (by simp [hh])
    simp [assign, h0, ih h1]

theorem mem_keys_assign {V : Type} (t : Table V) (k kk : String) (v : V) :
    kk ∈ (assign t k v).map Prod.fst ↔ kk ∈ t.map Prod.fst ∨ kk = k := by
  by_cases h : k ∈ t.map Prod.fst
  · rw [keys_assign_of_mem v h]
    constructor
    · exact Or.inl
    · rintro (hh | hh)
      · exact hh
      · exact hh ▸ h
  · rw [keys_assign_of_not_mem v h]
    simp

theorem nodupKeys_assign {V : Type} {t : Table V} (k : String) (v : V)
    (h : NodupKeys t) : NodupKeys (assign t k v) := by
  rw [NodupKeys] at h ⊢
  by_cases hm : k ∈ t.map Prod.fst
  · rw [keys_assign_of_mem v hm]; exact h
  · rw [keys_assign_of_not_mem v hm]
    simp [List.nodup_append, h, hm]

theorem tlookup_jsAssign_other {V : Type} (own : Table (PropD V))
    (chain : List (Table (PropD V))) (kk k : String) (v : V) (h : kk ≠ k) :
    tlookup (jsAssign own chain kk v) k = tlookup own k := by
  rw [jsAssign]
  split
  · exact tlookup_assign_other own kk k _ h
  · rfl

theorem jsAssign_of_not_canPut {V : Type} {own : Table (PropD V)}
    {chain : List (Table (PropD V))} {k : String} (v : V)
    (h : canPut own chain k = false) : jsAssign own chain k v = own := by
  simp [jsAssign, h]

theorem tlookup_jsAssign_canPut {V : Type} {own : Table (PropD V)}
    {chain : List (Table (PropD V))} {k : String} (v : V)
    (h : canPut own chain k = true) :
    tlookup (jsAssign own chain k v) k = some ⟨v, true⟩ := by
  simp [jsAssign, h, tlookup_assign_self]

theorem canPut_of_own_nonwritable {V : Type} {own : Table (PropD V)}
    (chain : List (Table (PropD V))) {k : String} {d : PropD V}
    (h : tlookup own k = some d) (hw : d.writable = false) :
    canPut own chain k = false := by
  simp [canPut, h, hw]

theorem canPut_of_own_writable {V : Type} {own : Table (PropD V)}
    (chain : List (Table (PropD V))) {k : String} {d : PropD V}
    (h : tlookup own k = some d) (hw : d.writable = true) :
    canPut own chain k = true := by
  simp [canPut, h, hw]

theorem tlookup_wrapM {M : Type} (t : Table M) (k : String) :
    tlookup (wrapM t) k
      = (tlookup t k).map (fun v => (⟨PValue.method v, false⟩ : PropD (PValue M))) := by
  induction t with
  | nil => simp [wrapM, tlookup]
  | cons kv rest ih =>
    obtain ⟨k0, v0⟩ := kv
    by_cases h0 : k0 = k
    · subst h0; simp [wrapM, tlookup]
    · simpa [wrapM, tlookup, h0] using ih

theorem wrapM_assign {M : Type} (t : Table M) (k : String) (v : M) :
    wrapM (assign t k v) = defineProp (wrapM t) k (PValue.method v) := by
  induction t with
  | nil => simp [wrapM, assign, defineProp]
  | cons kv rest ih =>
    obtain ⟨k0, v0⟩ := kv
    by_cases h0 : k0 = k
    · subst h0; simp [wrapM, assign, defineProp]
    · simp [wrapM, assign, defineProp, h0] at ih ⊢
      simpa [wrapM, defineProp] using ih

theorem apply_methods_fst {M : Type} (d : Table M) :
    ∀ acc : Table (PropD M) × PTable M,
      (apply_methods acc d).1
        = d.foldl (fun m kv => methodsAssign m kv.1 kv.2) acc.1 := by
  induction d with
  | nil => intro acc; rfl
  | cons kv rest ih =>
    intro acc
    have h1 : apply_methods acc (kv :: rest)
        = apply_methods (methodsAssign acc.1 kv.1 kv.2,
            defineProp acc.2 kv.1 (PValue.method kv.2)) rest := rfl
    rw [h1, ih, List.foldl_cons]

theorem apply_methods_snd {M : Type} (d : Table M) :
    ∀ acc : Table (PropD M) × PTable M,
      (apply_methods acc d).2
        = d.foldl (fun p kv => defineProp p kv.1 (PValue.method kv.2)) acc.2 := by
  induction d with
  | nil => intro acc; rfl
  | cons kv rest ih =>
    intro acc
    have h1 : apply_methods acc (kv :: rest)
        = apply_methods (methodsAssign acc.1 kv.1 kv.2,
            defineProp acc.2 kv.1 (PValue.method kv.2)) rest := rfl
    rw [h1, ih, List.foldl_cons]

theorem defineFold_wrap {M : Type} (d : Table M) :
    ∀ m : Table M,
      d.foldl (fun p kv => defineProp p kv.1 (PValue.method kv.2)) (wrapM m)
        = wrapM (d.foldl (fun a kv => assign a kv.1 kv.2) m) := by
  induction d with
  | nil => intro m; rfl
  | cons kv rest ih =>
    intro m
    rw [List.foldl_cons, List.foldl_cons, ← wrapM_assign, ih]

theorem applyAll_fst {M : Type} (mixins : List (MixinArg M)) :
    (applyAll mixins).1 = mergedRegistry (mixins.map effectiveDesc) := by
  rw [applyAll, mergedRegistry, List.foldl_map]
  suffices h : ∀ (l : List (MixinArg M)) (acc : Table (PropD M) × PTable M),
      (l.foldl (fun a mx => apply_methods a (effectiveDesc mx)) acc).1
        = l.foldl (fun m mx => (effectiveDesc mx).foldl
            (fun mm kv => methodsAssign mm kv.1 kv.2) m) acc.1 by
    exact h mixins ([], [])
  intro l
  induction l with
  | nil => intro acc; rfl
  | cons mx rest ih =>
    intro acc
    rw [List.foldl_cons, List.foldl_cons, ih, apply_methods_fst]

theorem applyAll_snd {M : Type} (mixins : List (MixinArg M)) :
    (applyAll mixins).2 = wrapM (mergedDescs (mixins.map effectiveDesc)) := by
  rw [applyAll, mergedDescs, List.foldl_map]
  suffices h : ∀ (l : List (MixinArg M)) (acc : Table (PropD M) × PTable M)
      (m : Table M), acc.2 = wrapM m →
      (l.foldl (fun a mx => apply_methods a (effectiveDesc mx)) acc).2
        = wrapM (l.foldl (fun mm mx => (effectiveDesc mx).foldl
            (fun a kv => assign a kv.1 kv.2) mm) m) by
    exact h mixins ([], []) [] rfl
  intro l
  induction l with
  | nil => intro acc m hm; exact hm
  | cons mx rest ih =>
    intro acc m hm
    rw [List.foldl_cons, List.foldl_cons]
    refine ih _ ((effectiveDesc mx).foldl (fun a kv => assign a kv.1 kv.2) m) ?_
    rw [apply_methods_snd, hm, defineFold_wrap]

theorem applyAll_eq {M : Type} (mixins : List (MixinArg M)) :
    applyAll mixins
      = (mergedRegistry (mixins.map effectiveDesc),
         wrapM (mergedDescs (mixins.map effectiveDesc))) := by
  have h1 := applyAll_fst mixins
  have h2 := applyAll_snd mixins
  calc applyAll mixins = ((applyAll mixins).1, (applyAll mixins).2) := rfl
    _ = _ := by rw [h1, h2]

theorem extend_methods {M : Type} (clsId : Nat) (P : JSClass M)
    (mixins : List (MixinArg M)) :
    (extend clsId P mixins).methods
      = mergedRegistry (mixins.map effectiveDesc) := by
  rw [extend, applyAll_eq]

theorem extend_parentChain {M : Type} (clsId : Nat) (P : JSClass M)
    (mixins : List (MixinArg M)) :
    (extend clsId P mixins).parentChain = P.protoOwn :: P.parentChain := rfl

theorem extend_protoOwn {M : Type} (clsId : Nat) (P : JSClass M)
    (mixins : List (MixinArg M)) :
    (extend clsId P mixins).protoOwn
      = jsAssign (wrapM (mergedDescs (mixins.map effectiveDesc)))
          (P.protoOwn :: P.parentChain) "constructor"
          ((chainGet (wrapM (mergedDescs (mixins.map effectiveDesc))
              :: P.protoOwn :: P.parentChain) "init").getD (PValue.classFn clsId)) := by
  rw [extend, applyAll_eq]

theorem protoOwn_lookup_some {M : Type} (clsId : Nat) (P : JSClass M)
    (mixins : List (MixinArg M)) {k : String} {v : M}
    (h : tlookup (mergedDescs (mixins.map effectiveDesc)) k = some v) :
    tlookup (extend clsId P mixins).protoOwn k
      = some ⟨PValue.method v, false⟩ := by
  rw [extend_protoOwn]
  by_cases hc : k = "constructor"
  · subst hc
    have hown : tlookup (wrapM (mergedDescs (mixins.map effectiveDesc))) "constructor"
        = some ⟨PValue.method v, false⟩ := by
      simp [tlookup_wrapM, h]
    rw [jsAssign_of_not_canPut _ (canPut_of_own_nonwritable _ hown rfl), hown]
  · rw [tlookup_jsAssign_other _ _ _ _ _ (fun hh => hc hh.symm)]
    simp [tlookup_wrapM, h]

theorem protoOwn_lookup_none {M : Type} (clsId : Nat) (P : JSClass M)
    (mixins : List (MixinArg M)) {k : String}
    (h : tlookup (mergedDescs (mixins.map effectiveDesc)) k = none)
    (hc : k ≠ "constructor") :
    tlookup (extend clsId P mixins).protoOwn k = none := by
  rw [extend_protoOwn]
  rw [tlookup_jsAssign_other _ _ _ _ _ (fun hh => hc hh.symm)]
  simp [tlookup_wrapM, h]

theorem foldAssign_not_mem {V : Type} (d : Table V) :
    ∀ (acc : Table V) (k : String), k ∉ d.map Prod.fst →
      tlookup (d.foldl (fun a kv => assign a kv.1 kv.2) acc) k = tlookup acc k := by
  induction d with
  | nil => intro acc k _; rfl
  | cons kv rest ih =>
    intro acc k h
    obtain ⟨k0, v0⟩ := kv
    have h0 : k0 ≠ k := fun hh => h (by simp [hh])
    have h1 : k ∉ rest.map Prod.fst := fun hh => h (by simp [hh])
    rw [List.foldl_cons, ih _ k h1]
    exact tlookup_assign_other acc k0 k v0 h0

theorem foldAssign_lookup {V : Type} (d : Table V) (hd : NodupKeys d) :
    ∀ (acc : Table V) (k : String),
      tlookup (d.foldl (fun a kv => assign a kv.1 kv.2) acc) k
        = ((tlookup d k).orElse fun _ => tlookup acc k) := by
  induction d with
  | nil => intro acc k; simp [tlookup, Option.orElse]
  | cons kv rest ih =>
    intro acc k
    obtain ⟨k0, v0⟩ := kv
    rw [NodupKeys, List.map_cons, List.nodup_cons] at hd
    by_cases h0 : k0 = k
    · subst h0
      have hnr : k0 ∉ rest.map Prod.fst := hd.1
      rw [List.foldl_cons, foldAssign_not_mem rest _ k0 hnr,
        tlookup_assign_self]
      simp [tlookup, Option.orElse]
    · rw [List.foldl_cons, ih hd.2]
      rw [tlookup_assign_other acc k0 k v0 h0]
      simp [tlookup, h0]

theorem nodupKeys_foldAssign {V : Type} (d : Table V) :
    ∀ m : Table V, NodupKeys m →
      NodupKeys (d.foldl (fun a kv => assign a kv.1 kv.2) m) := by
  induction d with
  | nil => intro m hm; exact hm
  | cons kv rest ih =>
    intro m hm
    rw [List.foldl_cons]
    exact ih _ (nodupKeys_assign kv.1 kv.2 hm)

theorem nodupKeys_mergedDescs {M : Type} (ds : List (Table M)) :
    NodupKeys (mergedDescs ds) := by
  rw [mergedDescs]
  suffices h : ∀ (l : List (Table M)) (m : Table M), NodupKeys m →
      NodupKeys (l.foldl (fun mm d => d.foldl (fun a kv => assign a kv.1 kv.2) mm) m) by
    exact h ds [] (by simp [NodupKeys])
  intro l
  induction l with
  | nil => intro m hm; exact hm
  | cons d rest ih =>
    intro m hm
    rw [List.foldl_cons]
    exact ih _ (nodupKeys_foldAssign d m hm)

theorem mergedDescs_single {M : Type} (d : Table M) (hd : NodupKeys d)
    (k : String) : tlookup (mergedDescs [d]) k = tlookup d k := by
  rw [mergedDescs]
  simp only [List.foldl_cons, List.foldl_nil]
  rw [foldAssign_lookup d hd [] k]
  cases h : tlookup d k <;> simp [Option.orElse, tlookup]

theorem tlookup_ownValues {M : Type} (t : Table (PropD M)) (k : String) :
    tlookup (ownValues t) k = (tlookup t k).map PropD.value := by
  induction t with
  | nil => simp [ownValues, tlookup]
  | cons kv rest ih =>
    obtain ⟨k0, d0⟩ := kv
    by_cases h0 : k0 = k
    · subst h0; simp [ownValues, tlookup]
    · simpa [ownValues, tlookup, h0] using ih

theorem keys_ownValues {M : Type} (t : Table (PropD M)) :
    (ownValues t).map Prod.fst = t.map Prod.fst := by
  induction t with
  | nil => rfl
  | cons kv rest ih =>
    obtain ⟨k0, d0⟩ := kv
    simp only [ownValues, List.map_cons] at ih ⊢
    rw [ih]

theorem nodupKeys_ownValues {M : Type} {t : Table (PropD M)} (h : NodupKeys t) :
    NodupKeys (ownValues t) := by
  rw [NodupKeys, keys_ownValues]
  exact h

theorem tlookup_methodsAssign_other {M : Type} (t : Table (PropD M))
    (kk k : String) (v : M) (h : kk ≠ k) :
    tlookup (methodsAssign t kk v) k = tlookup t k := by
  rw [methodsAssign]
  split
  · exact tlookup_assign_other t kk k _ h
  · rfl

theorem nodupKeys_methodsAssign {M : Type} {t : Table (PropD M)} (k : String)
    (v : M) (h : NodupKeys t) : NodupKeys (methodsAssign t k v) := by
  rw [methodsAssign]
  split
  · exact nodupKeys_assign k _ h
  · exact h

theorem nodupKeys_foldMethodsAssign {M : Type} (d : Table M) :
    ∀ m : Table (PropD M), NodupKeys m →
      NodupKeys (d.foldl (fun mm kv => methodsAssign mm kv.1 kv.2) m) := by
  induction d with
  | nil => intro m hm; exact hm
  | cons kv rest ih =>
    intro m hm
    rw [List.foldl_cons]
    exact ih _ (nodupKeys_methodsAssign kv.1 kv.2 hm)

theorem nodupKeys_mergedRegistry {M : Type} (ds : List (Table M)) :
    NodupKeys (mergedRegistry ds) := by
  rw [mergedRegistry]
  suffices h : ∀ (l : List (Table M)) (m : Table (PropD M)), NodupKeys m →
      NodupKeys (l.foldl (fun mm d => d.foldl
        (fun m2 kv => methodsAssign m2 kv.1 kv.2) mm) m) by
    exact h ds [] (by simp [NodupKeys])
  intro l
  induction l with
  | nil => intro m hm; exact hm
  | cons d rest ih =>
    intro m hm
    rw [List.foldl_cons]
    exact ih _ (nodupKeys_foldMethodsAssign d m hm)

theorem tlookup_methodsAssign_blocked {M : Type} {k : String}
    {d : PropD (PValue M)} (hp : tlookup (objectProto : PTable M) k = some d)
    (hw : d.writable = false) (t : Table (PropD M)) (ht : tlookup t k = none)
    (kk : String) (v : M) : tlookup (methodsAssign t kk v) k = none := by
  by_cases hkk : kk = k
  · subst hkk
    have hcp : canPutRegistry t kk = false := by
      rw [canPutRegistry, ht, hp]
      exact hw
    rw [methodsAssign, if_neg (by simp [hcp])]
    exact ht
  · rw [tlookup_methodsAssign_other t kk k v hkk]
    exact ht

theorem foldMethodsAssign_blocked {M : Type} {k : String} {d : PropD (PValue M)}
    (hp : tlookup (objectProto : PTable M) k = some d) (hw : d.writable = false)
    (dd : Table M) :
    ∀ t : Table (PropD M), tlookup t k = none →
      tlookup (dd.foldl (fun mm kv => methodsAssign mm kv.1 kv.2) t) k = none := by
  induction dd with
  | nil => intro t ht; exact ht
  | cons kv rest ih =>
    intro t ht
    rw [List.foldl_cons]
    exact ih _ (tlookup_methodsAssign_blocked hp hw t ht kv.1 kv.2)

theorem mergedRegistry_blocked {M : Type} {k : String} {d : PropD (PValue M)}
    (hp : tlookup (objectProto : PTable M) k = some d) (hw : d.writable = false)
    (ds : List (Table M)) : tlookup (mergedRegistry ds) k = none := by
  rw [mergedRegistry]
  suffices h : ∀ (l : List (Table M)) (m : Table (PropD M)), tlookup m k = none →
      tlookup (l.foldl (fun mm dd => dd.foldl
        (fun m2 kv => methodsAssign m2 kv.1 kv.2) mm) m) k = none by
    exact h ds [] rfl
  intro l
  induction l with
  | nil => intro m hm; exact hm
  | cons dd rest ih =>
    intro m hm
    rw [List.foldl_cons]
    exact ih _ (foldMethodsAssign_blocked hp hw dd m hm)

theorem chainLookup_mem_exists {V : Type} {l : List (Table V)} {k : String} {d : V}
    (h : chainLookup l k = some d) : ∃ t ∈ l, tlookup t k = some d := by
  induction l with
  | nil => simp [chainLookup] at h
  | cons t rest ih =>
    rw [chainLookup] at h
    cases ht : tlookup t k with
    | some v => rw [ht] at h; exact ⟨t, by simp, by simp [ht, ← h]⟩
    | none =>
      rw [ht] at h
      obtain ⟨t2, ht2, hl2⟩ := ih h
      exact ⟨t2, by simp [ht2], hl2⟩

theorem chainGet_cons_some {V : Type} {t : Table (PropD V)}
    {l : List (Table (PropD V))} {k : String} {d : PropD V}
    (h : tlookup t k = some d) : chainGet (t :: l) k = some d.value := by
  simp [chainGet, chainLookup, h]

theorem chainGet_cons_none {V : Type} {t : Table (PropD V)}
    {l : List (Table (PropD V))} {k : String}
    (h : tlookup t k = none) : chainGet (t :: l) k = chainGet l k := by
  simp [chainGet, chainLookup, h]

theorem built_super_nonwritable {M : Type} {C : JSClass M} (h : Built C) :
    ∀ t ∈ C.protoOwn :: C.parentChain, ∀ d : PropD (PValue M),
      tlookup t "_super" = some d → d.writable = false := by
  induction h with
  | base =>
    intro t ht d hd
    simp [ObjectClass] at ht
    subst ht
    have hnone : tlookup (objectProto : PTable M) "_super" = none := rfl
    rw [hnone] at hd
    exact Option.noConfusion hd
  | step clsId P margs hP ih =>
    intro t ht d hd
    rw [extend_parentChain] at ht
    rcases List.mem_cons.mp ht with ht | ht
    · subst ht
      rw [extend_protoOwn,
        tlookup_jsAssign_other _ _ _ _ _ (by decide : "constructor" ≠ "_super"),
        tlookup_wrapM] at hd
      cases hm : tlookup (mergedDescs (margs.map effectiveDesc)) "_super" with
      | none => rw [hm] at hd; simp at hd
      | some v =>
        rw [hm] at hd
        simp at hd
        rw [← hd]
    · exact ih t ht d hd

theorem newInstance_chain {M A : Type} (C : JSClass M) (args : List A) :
    (newInstance C args).1.chain = C.protoOwn :: C.parentChain := rfl

theorem newInstance_snd {M A : Type} (C : JSClass M) (args : List A) :
    (newInstance C args).2
      = (instGet (newInstance C args).1 "init").map (fun f => (f, args)) := rfl

theorem newInstance_own_other {M A : Type} (C : JSClass M) (args : List A)
    (k : String) (h : k ≠ "_super") :
    tlookup (newInstance C args).1.own k = none := by
  show tlookup (jsAssign [] (C.protoOwn :: C.parentChain) "_super" PValue.superFn) k
    = none
  rw [tlookup_jsAssign_other _ _ _ _ _ (fun hh => h hh.symm)]
  rfl

theorem newInstance_own_of_canPut {M A : Type} (C : JSClass M) (args : List A)
    (h : canPut [] (C.protoOwn :: C.parentChain) "_super" = true) :
    (newInstance C args).1.own = [("_super", ⟨PValue.superFn, true⟩)] := by
  show jsAssign [] (C.protoOwn :: C.parentChain) "_super" PValue.superFn
    = [("_super", ⟨PValue.superFn, true⟩)]
  rw [jsAssign, if_pos h]
  rfl

theorem canPut_nil {V : Type} (chain : List (Table (PropD V))) (k : String)
    {d : PropD V} (h : chainLookup chain k = some d) :
    canPut [] chain k = d.writable := by
  rw [canPut]
  simp only [tlookup]
  rw [h]

theorem chainGet_cons_congr {V : Type} {t1 t2 : Table (PropD V)}
    {l : List (Table (PropD V))} {k : String}
    (h : tlookup t1 k = tlookup t2 k) :
    chainGet (t1 :: l) k = chainGet (t2 :: l) k := by
  cases hh : tlookup t2 k with
  | some d => rw [chainGet_cons_some (h.trans hh), chainGet_cons_some hh]
  | none => rw [chainGet_cons_none (h.trans hh), chainGet_cons_none hh]

theorem map_effectiveDesc_desc {M : Type} (ds : List (Table M)) :
    (ds.map MixinArg.desc).map effectiveDesc = ds := by
  rw [List.map_map]
  exact List.map_id ds

/-- C1: for every instance of an extend-produced class, every ancestor
class with a method name defined on its prototype, and every argument
list, invoking the per-instance _super helper with that ancestor, that
name and those arguments applies exactly the implementation stored on
the ancestor prototype, with the current instance as receiver and the
given arguments, independently of any same-named method defined nearer
to the instance (the instance and its own chain do not occur in the
resolution at all). -/
theorem claim_C1 {M A : Type} (inst : Instance M) (anc : JSClass M)
    (m : String) (d : PropD (PValue M)) (args : List A)
    (h : tlookup anc.protoOwn m = some d) :
    superCall inst anc m args = some (d.value, inst, args) := by
  show (chainGet (anc.protoOwn :: anc.parentChain) m).map (fun f => (f, inst, args))
    = some (d.value, inst, args)
  rw [chainGet_cons_some h]
  rfl

/-- C1 witness: a concrete ancestor defining dance, called through
_super on an instance whose own table and chain both define a nearer
dance override, still resolves to the ancestor implementation with the
instance as receiver. -/
theorem claim_C1_witness :
    superCall
      (⟨[("dance", ⟨PValue.method "override", false⟩)],
        [[("dance", ⟨PValue.method "override2", false⟩)]]⟩ : Instance String)
      (extend 1 ObjectClass [MixinArg.desc [("dance", "pd")]])
      "dance" [1, 2]
    = some (PValue.method "pd",
        ⟨[("dance", ⟨PValue.method "override", false⟩)],
         [[("dance", ⟨PValue.method "override2", false⟩)]]⟩, [1, 2]) :=
  claim_C1 _ _ "dance" ⟨PValue.method "pd", false⟩ [1, 2] (by decide)

/-- C2: every own method of every supplied mixin descriptor is copied
onto the new prototype in argument order: whatever name the argument-
order merge of the descriptors resolves is found on the new prototype
(and through the instance chain, so the merge also beats any same-named
inherited method), and for two descriptors defining the same name the
later-argument value is the one the merge resolves.  This also holds
for a mixin named constructor, because the later assignment of line 260
of object.js fails silently against the non-writable slot apply_methods
defined. -/
theorem claim_C2 {M : Type} (clsId : Nat) (P : JSClass M) (ds : List (Table M))
    (k : String) (v : M) :
    (tlookup (mergedDescs ds) k = some v →
      pGet (extend clsId P (ds.map MixinArg.desc)).protoOwn k
        = some (PValue.method v))
    ∧ (tlookup (mergedDescs ds) k = some v →
      chainGet ((extend clsId P (ds.map MixinArg.desc)).protoOwn
          :: (extend clsId P (ds.map MixinArg.desc)).parentChain) k
        = some (PValue.method v))
    ∧ (∀ d1 d2 : Table M, ds = [d1, d2] → NodupKeys d2 →
        tlookup d2 k = some v → tlookup (mergedDescs ds) k = some v) := by
  have hmap : mergedDescs ((ds.map MixinArg.desc).map effectiveDesc)
      = mergedDescs ds := by rw [map_effectiveDesc_desc]
  refine ⟨fun h => ?_, fun h => ?_, fun d1 d2 hds hnd h2 => ?_⟩
  · have hh := protoOwn_lookup_some clsId P (ds.map MixinArg.desc)
      (by rw [hmap]; exact h)
    simp [pGet, hh]
  · have hh := protoOwn_lookup_some clsId P (ds.map MixinArg.desc)
      (by rw [hmap]; exact h)
    rw [chainGet_cons_some hh]
  · subst hds
    rw [mergedDescs]
    simp only [List.foldl_cons, List.foldl_nil]
    rw [foldAssign_lookup d2 hnd, h2]
    rfl

/-- C2 witness: with two concrete mixins both defining f, the later
argument resolves on the merge and is the value found on the new class
prototype. -/
theorem claim_C2_witness :
    tlookup (mergedDescs [[("f", "m1")], [("f", "m2")]]) "f" = some "m2"
    ∧ pGet (extend 1 (ObjectClass : JSClass String)
        ([[("f", "m1")], [("f", "m2")]].map MixinArg.desc)).protoOwn "f"
      = some (PValue.method "m2") := by
  refine ⟨(claim_C2 1 (ObjectClass : JSClass String)
      [[("f", "m1")], [("f", "m2")]] "f" "m2").2.2
      [("f", "m1")] [("f", "m2")] rfl (by rw [NodupKeys]; decide) (by decide), ?_⟩
  exact (claim_C2 1 (ObjectClass : JSClass String)
      [[("f", "m1")], [("f", "m2")]] "f" "m2").1 (by decide)

/-- C3 counterexample: the claim states that an extend-produced class
carries its full merged method set in its hidden registry and
contributes all of it when passed as a mixin.  Concretely, a mixin
method named mixin lands on the class prototype through defineProperty,
but the registry write methods.mixin = ... of line 242 is silently
blocked by the non-writable mixin helper the file itself installed on
Object.prototype (which the plain registry object of line 208
inherits): the registry misses the method, and a further extend that
receives the class as a mixin does not re-apply it. -/
theorem claim_C3_cex :
    pGet (extend 1 (ObjectClass : JSClass String)
        [MixinArg.desc [("mixin", "mm")]]).protoOwn "mixin"
      = some (PValue.method "mm")
    ∧ tlookup (extend 1 (ObjectClass : JSClass String)
        [MixinArg.desc [("mixin", "mm")]]).methods "mixin" = none
    ∧ pGet (extend 2 (ObjectClass : JSClass String)
        [MixinArg.cls (extend 1 ObjectClass
          [MixinArg.desc [("mixin", "mm")]])]).protoOwn "mixin" = none := by
  refine ⟨by decide, by decide, by decide⟩

/-- C3 as amended: the hidden registry of an extend-produced class is
the argument-order sloppy-mode accumulation of all the effective
descriptors of its own extend call — independent of its parent, but
silently missing every name blocked by a non-writable Object.prototype
slot, namely the mixin and extend helpers this file installs; passing
the class as a mixin argument to a further extend is the same as
passing the registry contents as a plain descriptor, so exactly the
registry entries land on the descendant prototype, while names the
registry does not hold (anything only inherited from the class
ancestors, and the blocked names) do not land there. -/
theorem claim_C3 {M : Type} (id1 id2 : Nat) (P Q : JSClass M)
    (margs : List (MixinArg M)) :
    ((extend id1 P margs).methods = mergedRegistry (margs.map effectiveDesc))
    ∧ (∀ k d, tlookup (objectProto : PTable M) k = some d →
        d.writable = false → tlookup (extend id1 P margs).methods k = none)
    ∧ (extend id2 Q [MixinArg.cls (extend id1 P margs)]
        = extend id2 Q [MixinArg.desc (ownValues (extend id1 P margs).methods)])
    ∧ (∀ k dv, tlookup (extend id1 P margs).methods k = some dv →
        pGet (extend id2 Q [MixinArg.cls (extend id1 P margs)]).protoOwn k
          = some (PValue.method dv.value))
    ∧ (∀ k, tlookup (extend id1 P margs).methods k = none → k ≠ "constructor" →
        tlookup (extend id2 Q [MixinArg.cls (extend id1 P margs)]).protoOwn k
          = none) := by
  have hnd : NodupKeys (extend id1 P margs).methods := by
    rw [extend_methods]; exact nodupKeys_mergedRegistry _
  have hsingle : ∀ k, tlookup (mergedDescs
      ([MixinArg.cls (extend id1 P margs)].map effectiveDesc)) k
      = (tlookup (extend id1 P margs).methods k).map PropD.value := by
    intro k
    simp only [List.map_cons, List.map_nil, effectiveDesc]
    rw [mergedDescs_single _ (nodupKeys_ownValues hnd) k, tlookup_ownValues]
  refine ⟨extend_methods id1 P margs, fun k d hp hw => ?_, rfl,
    fun k dv h => ?_, fun k h hc => ?_⟩
  · rw [extend_methods]
    exact mergedRegistry_blocked hp hw _
  · have hh := protoOwn_lookup_some id2 Q [MixinArg.cls (extend id1 P margs)]
      (by rw [hsingle k, h]; rfl)
    simp [pGet, hh]
  · refine protoOwn_lookup_none id2 Q [MixinArg.cls (extend id1 P margs)]
      ?_ hc
    rw [hsingle k, h]
    rfl

/-- C3 witness: a class built in two steps (a parent contributing dance,
then an extension authoring swing) has a registry holding exactly
swing; passed as a mixin it contributes swing to a fresh descendant
prototype, does not contribute the inherited dance, and its registry
holds nothing under the blocked name mixin. -/
theorem claim_C3_witness :
    pGet (extend 2 (ObjectClass : JSClass String)
        [MixinArg.cls (extend 1 (extend 5 ObjectClass
          [MixinArg.desc [("dance", "pd")]]) [MixinArg.desc [("swing", "sw")]])]).protoOwn
        "swing"
      = some (PValue.method "sw")
    ∧ tlookup (extend 2 (ObjectClass : JSClass String)
        [MixinArg.cls (extend 1 (extend 5 ObjectClass
          [MixinArg.desc [("dance", "pd")]]) [MixinArg.desc [("swing", "sw")]])]).protoOwn
        "dance"
      = none
    ∧ tlookup (extend 1 (extend 5 (ObjectClass : JSClass String)
        [MixinArg.desc [("dance", "pd")]]) [MixinArg.desc [("swing", "sw")]]).methods
        "mixin"
      = none :=
  ⟨(claim_C3 1 2 (extend 5 ObjectClass [MixinArg.desc [("dance", "pd")]])
      (ObjectClass : JSClass String) [MixinArg.desc [("swing", "sw")]]).2.2.2.1
      "swing" ⟨"sw", true⟩ (by decide),
   (claim_C3 1 2 (extend 5 ObjectClass [MixinArg.desc [("dance", "pd")]])
      (ObjectClass : JSClass String) [MixinArg.desc [("swing", "sw")]]).2.2.2.2
      "dance" (by decide) (by decide),
   (claim_C3 1 2 (extend 5 ObjectClass [MixinArg.desc [("dance", "pd")]])
      (ObjectClass : JSClass String) [MixinArg.desc [("swing", "sw")]]).2.1
      "mixin" ⟨PValue.builtin "mixin", false⟩ (by decide) rfl⟩

/-- C5 counterexample: the claim states that when the merged method set
of an extend call defines no initializer, the synthesized class
function itself becomes the prototype constructor marker.  Concretely,
extending a parent whose prototype chain supplies init with an empty
mixin list yields a class whose merged set has no init, and yet whose
constructor marker is the inherited parent initializer, not the class
function: line 260 of object.js reads Class.prototype.init through the
whole chain before falling back to Class. -/
theorem claim_C5_cex :
    tlookup (extend 2 (extend 1 (ObjectClass : JSClass String)
        [MixinArg.desc [("init", "pinit")]]) []).methods "init" = none
    ∧ pGet (extend 2 (extend 1 (ObjectClass : JSClass String)
        [MixinArg.desc [("init", "pinit")]]) []).protoOwn "constructor"
      = some (PValue.method "pinit")
    ∧ PValue.method "pinit" ≠ (PValue.classFn 2 : PValue String) := by
  refine ⟨by decide, by decide, by decide⟩

/-- C5 as amended: for a class produced by extend whose mixins supply
no constructor-named method and whose parent chain carries no non-
writable constructor slot (so that the marker assignment of line 260
succeeds), the externally visible constructor marker is whatever init
resolves to anywhere on the new prototype chain, the merged set first
and the inherited chain otherwise, falling back to the synthesized
class function only when no init exists at all; and construction
invokes exactly that chain-resolved init value with the callers
arguments. -/
theorem claim_C5 {M A : Type} (clsId : Nat) (P : JSClass M)
    (margs : List (MixinArg M)) (args : List A)
    (h1 : tlookup (mergedDescs (margs.map effectiveDesc)) "constructor" = none)
    (h2 : ∀ d : PropD (PValue M),
      chainLookup (P.protoOwn :: P.parentChain) "constructor" = some d →
      d.writable = true) :
    pGet (extend clsId P margs).protoOwn "constructor"
      = some ((chainGet ((extend clsId P margs).protoOwn
          :: (extend clsId P margs).parentChain) "init").getD (PValue.classFn clsId))
    ∧ (newInstance (extend clsId P margs) args).2
      = (chainGet ((extend clsId P margs).protoOwn
          :: (extend clsId P margs).parentChain) "init").map (fun f => (f, args)) := by
  have hwrap : tlookup (wrapM (mergedDescs (margs.map effectiveDesc))) "constructor"
      = none := by simp [tlookup_wrapM, h1]
  have hcp : canPut (wrapM (mergedDescs (margs.map effectiveDesc)))
      (P.protoOwn :: P.parentChain) "constructor" = true := by
    rw [canPut, hwrap]
    cases hc : chainLookup (P.protoOwn :: P.parentChain) "constructor" with
    | some d => simpa using h2 d hc
    | none => simp
  have hinit : chainGet ((extend clsId P margs).protoOwn
      :: (extend clsId P margs).parentChain) "init"
      = chainGet (wrapM (mergedDescs (margs.map effectiveDesc))
          :: P.protoOwn :: P.parentChain) "init" := by
    rw [extend_parentChain]
    refine chainGet_cons_congr ?_
    rw [extend_protoOwn]
    exact tlookup_jsAssign_other _ _ _ _ _ (by decide)
  constructor
  · rw [hinit, extend_protoOwn, pGet,
      tlookup_jsAssign_canPut _ hcp]
    rfl
  · rw [newInstance_snd]
    have hown : instGet (newInstance (extend clsId P margs) args).1 "init"
        = chainGet ((extend clsId P margs).protoOwn
            :: (extend clsId P margs).parentChain) "init" := by
      rw [instGet, newInstance_chain]
      exact chainGet_cons_none (newInstance_own_other _ args "init" (by decide))
    rw [hown]

/-- C5 witness: a single mixin authoring init on the Object root makes
that init both the constructor marker and the invoked construction
routine, applied to the callers arguments. -/
theorem claim_C5_witness :
    pGet (extend 1 (ObjectClass : JSClass String)
        [MixinArg.desc [("init", "i0")]]).protoOwn "constructor"
      = some ((chainGet ((extend 1 (ObjectClass : JSClass String)
          [MixinArg.desc [("init", "i0")]]).protoOwn
          :: (extend 1 (ObjectClass : JSClass String)
          [MixinArg.desc [("init", "i0")]]).parentChain) "init").getD
          (PValue.classFn 1))
    ∧ (newInstance (extend 1 (ObjectClass : JSClass String)
        [MixinArg.desc [("init", "i0")]]) [7]).2
      = (chainGet ((extend 1 (ObjectClass : JSClass String)
          [MixinArg.desc [("init", "i0")]]).protoOwn
          :: (extend 1 (ObjectClass : JSClass String)
          [MixinArg.desc [("init", "i0")]]).parentChain) "init").map
          (fun f => (f, [7])) :=
  claim_C5 1 (ObjectClass : JSClass String) [MixinArg.desc [("init", "i0")]]
    ([7] : List Nat) (by decide)
    (by
      intro d hd
      have hnone : chainLookup ((ObjectClass : JSClass String).protoOwn
          :: (ObjectClass : JSClass String).parentChain) "constructor"
          = (none : Option (PropD (PValue String))) := by decide
      rw [hnone] at hd
      exact Option.noConfusion hd)

/-- C9 counterexample: the claim states that every construction of an
instance installs the _super helper as an own property of the new
instance.  Concretely, for a class whose mixin defines a method named
_super, apply_methods leaves a non-writable _super slot on the
prototype, the sloppy-mode assignment this._super = (helper) of line
222 fails silently, the new instance has no own _super at all, and the
name resolves to the mixin method instead of the helper. -/
theorem claim_C9_cex :
    tlookup ((newInstance (extend 1 (ObjectClass : JSClass String)
        [MixinArg.desc [("_super", "evil")]]) ([] : List Nat)).1).own "_super"
      = none
    ∧ instGet ((newInstance (extend 1 (ObjectClass : JSClass String)
        [MixinArg.desc [("_super", "evil")]]) ([] : List Nat)).1) "_super"
      = some (PValue.method "evil") := by
  refine ⟨by decide, by decide⟩

/-- C9 as amended: whenever the prototype chain of the class carries no
non-writable _super slot (which is the case for every class whose
mixins never author a method named _super), construction installs the
_super dispatch helper as an own writable property of the new instance
before the initializer is looked up, so the helper is present on the
instance, shadows any _super further up the chain, and the recorded
initializer invocation is resolved against the instance already
carrying the helper. -/
theorem claim_C9 {M A : Type} (C : JSClass M) (args : List A)
    (h : canPut [] (C.protoOwn :: C.parentChain) "_super" = true) :
    (newInstance C args).1.own = [("_super", ⟨PValue.superFn, true⟩)]
    ∧ instGet (newInstance C args).1 "_super" = some PValue.superFn
    ∧ (newInstance C args).2
      = (instGet (newInstance C args).1 "init").map (fun f => (f, args)) := by
  have hown := newInstance_own_of_canPut C args h
  refine ⟨hown, ?_, newInstance_snd C args⟩
  rw [instGet, hown]
  have hl : tlookup [("_super", (⟨PValue.superFn, true⟩ : PropD (PValue M)))]
      "_super" = some ⟨PValue.superFn, true⟩ := by
    simp [tlookup]
  exact chainGet_cons_some hl

/-- C9 witness: constructing an instance of a concrete class (a parent
whose prototype even defines a method named dance) installs the helper
as the single own property and resolves _super to the helper. -/
theorem claim_C9_witness :
    (newInstance (extend 1 (ObjectClass : JSClass String)
        [MixinArg.desc [("dance", "pd")]]) ([3] : List Nat)).1.own
      = [("_super", ⟨PValue.superFn, true⟩)]
    ∧ instGet (newInstance (extend 1 (ObjectClass : JSClass String)
        [MixinArg.desc [("dance", "pd")]]) ([3] : List Nat)).1 "_super"
      = some PValue.superFn
    ∧ (newInstance (extend 1 (ObjectClass : JSClass String)
        [MixinArg.desc [("dance", "pd")]]) ([3] : List Nat)).2
      = (instGet (newInstance (extend 1 (ObjectClass : JSClass String)
          [MixinArg.desc [("dance", "pd")]]) ([3] : List Nat)).1 "init").map
          (fun f => (f, [3])) :=
  claim_C9 (extend 1 (ObjectClass : JSClass String)
    [MixinArg.desc [("dance", "pd")]]) ([3] : List Nat) (by decide)

/-- C4: for every produced class the fresh prototype chains directly to
the parent prototype, instances start their chain at the fresh
prototype, and for a class built from a Built parent with no mixins,
any name the child prototype does not define that the parent chain
resolves is resolved on the instance to the parent implementation;
this includes the name _super, because a parent-chain _super slot is
always non-writable, which makes the per-instance helper assignment
fail silently and leaves the parent implementation visible. -/
theorem claim_C4 {M A : Type} (clsId : Nat) (P : JSClass M)
    (margs : List (MixinArg M)) (args : List A) (k : String)
    (d : PropD (PValue M)) (hB : Built P)
    (hchild : tlookup (extend clsId P []).protoOwn k = none)
    (hpar : chainLookup (P.protoOwn :: P.parentChain) k = some d) :
    (extend clsId P margs).parentChain = P.protoOwn :: P.parentChain
    ∧ (newInstance (extend clsId P []) args).1.chain
      = (extend clsId P []).protoOwn :: P.protoOwn :: P.parentChain
    ∧ instGet (newInstance (extend clsId P []) args).1 k = some d.value := by
  have hchain : (newInstance (extend clsId P []) args).1.chain
      = (extend clsId P []).protoOwn :: P.protoOwn :: P.parentChain := by
    rw [newInstance_chain, extend_parentChain]
  refine ⟨extend_parentChain clsId P margs, hchain, ?_⟩
  have htail : chainGet ((extend clsId P []).protoOwn
      :: P.protoOwn :: P.parentChain) k = some d.value := by
    rw [chainGet_cons_none hchild, chainGet, hpar]
    rfl
  by_cases hk : k = "_super"
  · subst hk
    have hw : d.writable = false := by
      obtain ⟨t, ht, hlt⟩ := chainLookup_mem_exists hpar
      exact built_super_nonwritable hB t ht d hlt
    have hcl : chainLookup ((extend clsId P []).protoOwn
        :: P.protoOwn :: P.parentChain) "_super" = some d := by
      rw [chainLookup, hchild]
      exact hpar
    have hcp : canPut [] ((extend clsId P []).protoOwn
        :: P.protoOwn :: P.parentChain) "_super" = false :=
      (canPut_nil _ _ hcl).trans hw
    have hown : (newInstance (extend clsId P []) args).1.own = [] := by
      show jsAssign [] ((extend clsId P []).protoOwn
        :: (extend clsId P []).parentChain) "_super" PValue.superFn = []
      rw [extend_parentChain]
      exact jsAssign_of_not_canPut _ hcp
    rw [instGet, hown, hchain, chainGet_cons_none (by rfl)]
    exact htail
  · rw [instGet, hchain,
      chainGet_cons_none (newInstance_own_other _ args k hk)]
    exact htail

/-- C4 witness: a child of a concrete dance-defining parent, built with
no mixins, resolves dance on its instances to the parent
implementation, and its chain starts at the fresh prototype chained to
the parent prototype. -/
theorem claim_C4_witness :
    (extend 2 (extend 1 (ObjectClass : JSClass String)
        [MixinArg.desc [("dance", "pd")]]) []).parentChain
      = (extend 1 (ObjectClass : JSClass String)
          [MixinArg.desc [("dance", "pd")]]).protoOwn
        :: (extend 1 (ObjectClass : JSClass String)
          [MixinArg.desc [("dance", "pd")]]).parentChain
    ∧ (newInstance (extend 2 (extend 1 (ObjectClass : JSClass String)
        [MixinArg.desc [("dance", "pd")]]) []) ([] : List Nat)).1.chain
      = (extend 2 (extend 1 (ObjectClass : JSClass String)
          [MixinArg.desc [("dance", "pd")]]) []).protoOwn
        :: (extend 1 (ObjectClass : JSClass String)
          [MixinArg.desc [("dance", "pd")]]).protoOwn
        :: (extend 1 (ObjectClass : JSClass String)
          [MixinArg.desc [("dance", "pd")]]).parentChain
    ∧ instGet (newInstance (extend 2 (extend 1 (ObjectClass : JSClass String)
        [MixinArg.desc [("dance", "pd")]]) []) ([] : List Nat)).1 "dance"
      = some (PValue.method "pd") :=
  claim_C4 2 (extend 1 (ObjectClass : JSClass String)
      [MixinArg.desc [("dance", "pd")]]) [] ([] : List Nat) "dance"
    ⟨PValue.method "pd", false⟩
    (Built.step 1 ObjectClass [MixinArg.desc [("dance", "pd")]] Built.base)
    (by decide) (by decide)

/-- C6: a bound function captures the target, the context and the
curried arguments; invoked as a plain call (this not an instance of the
wrapper) it applies the target to the captured context with the curried
arguments prepended to the call arguments; invoked as a constructor
(this being the fresh object created by new, which is an instance of
the wrapper through the prototype installed on lines 134-138) it
applies the target to that fresh object, ignoring the captured
context, again with the curried arguments prepended. -/
theorem claim_C6 {F C A : Type} (f : F) (ctx : C) (cs : List A) (o : C)
    (callArgs : List A) :
    bindShim (JSFunVal.fn f) ctx cs = Except.ok (f, ctx, cs)
    ∧ boundBody f ctx cs none callArgs
      = { target := f, thisArg := ctx, args := cs ++ callArgs }
    ∧ boundBody f ctx cs (some o) callArgs
      = { target := f, thisArg := o, args := cs ++ callArgs } := by
  refine ⟨rfl, rfl, rfl⟩

/-- C8: the bind fallback throws the TypeError of line 120 exactly on
non-callable receivers, and succeeds (capturing target, context and
curried arguments) on every function receiver. -/
theorem claim_C8 {F C A : Type} (v : JSFunVal F) (that : C) (cs : List A) :
    (∀ tag, v = JSFunVal.nonCallable tag →
      bindShim v that cs = Except.error
        ("TypeError: Function.prototype.bind called on incompatible " ++ tag))
    ∧ (∀ f, v = JSFunVal.fn f →
      bindShim v that cs = Except.ok (f, that, cs)) := by
  refine ⟨fun tag h => ?_, fun f h => ?_⟩ <;> subst h <;> rfl

/-- C8 witness: a concrete non-callable receiver yields the TypeError
and a concrete function receiver succeeds. -/
theorem claim_C8_witness :
    bindShim (JSFunVal.nonCallable "undefined" : JSFunVal Nat) 0 ([] : List Nat)
      = Except.error
        ("TypeError: Function.prototype.bind called on incompatible " ++ "undefined")
    ∧ bindShim (JSFunVal.fn 5 : JSFunVal Nat) 0 ([] : List Nat)
      = Except.ok (5, 0, []) :=
  ⟨(claim_C8 (JSFunVal.nonCallable "undefined" : JSFunVal Nat) 0 ([] : List Nat)).1
      "undefined" rfl,
   (claim_C8 (JSFunVal.fn 5 : JSFunVal Nat) 0 ([] : List Nat)).2 5 rfl⟩

theorem hasOwnProperty_srcGet {M : Type} {o : SrcObj M} {k : String}
    (h : hasOwnProperty o k = true) : srcGet o k = tlookup o.own k := by
  obtain ⟨v, hv⟩ := Option.isSome_iff_exists.mp h
  rw [srcGet, chainLookup, hv]

theorem canPut_congr {V : Type} {own1 own2 : Table (PropD V)}
    (chain : List (Table (PropD V))) (k : String)
    (h : tlookup own1 k = tlookup own2 k) :
    canPut own1 chain k = canPut own2 chain k := by
  rw [canPut, canPut, h]

theorem mixinStep_other {M : Type} (o : SrcObj M)
    (chain : List (Table (PropD M))) (acc : Table (PropD M)) (kk k : String)
    (h : kk ≠ k) : tlookup (mixinStep o chain acc kk) k = tlookup acc k := by
  by_cases ho : hasOwnProperty o kk = true
  · rw [mixinStep, if_pos ho]
    cases hg : srcGet o kk with
    | some v => exact tlookup_jsAssign_other _ _ _ _ _ h
    | none => rfl
  · rw [mixinStep, if_neg (by simpa using ho)]

theorem mixinStep_self {M : Type} (o : SrcObj M)
    (chain : List (Table (PropD M))) (acc : Table (PropD M)) (k : String)
    (ho : hasOwnProperty o k = true) {v : M} (hv : tlookup o.own k = some v) :
    mixinStep o chain acc k = jsAssign acc chain k v := by
  rw [mixinStep, if_pos ho, hasOwnProperty_srcGet ho, hv]

theorem mixinStep_not_own {M : Type} (o : SrcObj M)
    (chain : List (Table (PropD M))) (acc : Table (PropD M)) (k : String)
    (ho : hasOwnProperty o k = false) : mixinStep o chain acc k = acc := by
  rw [mixinStep, if_neg (by simp [ho])]

theorem enumKeys_aux_mem :
    ∀ (l acc : List String) (k : String),
      k ∈ l.foldl (fun a x => if x ∈ a then a else a ++ [x]) acc
        ↔ k ∈ acc ∨ k ∈ l := by
  intro l
  induction l with
  | nil => intro acc k; simp
  | cons x rest ih =>
    intro acc k
    rw [List.foldl_cons, ih]
    by_cases hx : x ∈ acc
    · rw [if_pos hx]
      constructor
      · rintro (h | h)
        · exact Or.inl h
        · exact Or.inr (List.mem_cons_of_mem x h)
      · rintro (h | h)
        · exact Or.inl h
        · rcases List.mem_cons.mp h with h | h
          · exact Or.inl (h ▸ hx)
          · exact Or.inr h
    · rw [if_neg hx]
      constructor
      · rintro (h | h)
        · rcases List.mem_append.mp h with h | h
          · exact Or.inl h
          · exact Or.inr (List.mem_cons.mpr (Or.inl (List.mem_singleton.mp h)))
        · exact Or.inr (List.mem_cons_of_mem x h)
      · rintro (h | h)
        · exact Or.inl (List.mem_append.mpr (Or.inl h))
        · rcases List.mem_cons.mp h with h | h
          · exact Or.inl (List.mem_append.mpr (Or.inr (List.mem_singleton.mpr h)))
          · exact Or.inr h

theorem mem_enumKeys {l : List String} {k : String} :
    k ∈ enumKeys l ↔ k ∈ l := by
  rw [enumKeys, enumKeys_aux_mem]
  simp

theorem mem_forInKeys_of_own {M : Type} {o : SrcObj M} {k : String}
    (h : hasOwnProperty o k = true) : k ∈ forInKeys o := by
  obtain ⟨v, hv⟩ := Option.isSome_iff_exists.mp h
  rw [forInKeys, mem_enumKeys, allKeys]
  exact List.mem_append.mpr (Or.inl (tlookup_mem_keys hv))

theorem mixin_fold_lookup {M : Type} (o : SrcObj M)
    (chain : List (Table (PropD M))) (own0 : Table (PropD M)) (k : String) :
    ∀ (ks : List String) (acc : Table (PropD M)),
      (tlookup acc k = tlookup own0 k
        ∨ (∃ v, tlookup o.own k = some v ∧ canPut own0 chain k = true
            ∧ tlookup acc k = some ⟨v, true⟩))
      → tlookup (ks.foldl (mixinStep o chain) acc) k
        = (if k ∈ ks ∧ hasOwnProperty o k = true ∧ canPut own0 chain k = true
           then (tlookup o.own k).map (fun v => (⟨v, true⟩ : PropD M))
           else tlookup acc k) := by
  intro ks
  induction ks with
  | nil =>
    intro acc _
    simp
  | cons kk rest ih =>
    intro acc hinv
    rw [List.foldl_cons]
    by_cases hkk : kk = k
    · subst hkk
      by_cases ho : hasOwnProperty o kk = true
      · obtain ⟨v, hv⟩ := Option.isSome_iff_exists.mp ho
        by_cases hcp : canPut own0 chain kk = true
        · have hacc : canPut acc chain kk = true := by
            rcases hinv with hl | ⟨v2, _, _, hlk⟩
            · rw [canPut_congr chain kk hl]; exact hcp
            · exact canPut_of_own_writable chain hlk rfl
          have hstep : tlookup (mixinStep o chain acc kk) kk = some ⟨v, true⟩ := by
            rw [mixinStep_self o chain acc kk ho hv]
            exact tlookup_jsAssign_canPut v hacc
          rw [ih _ (Or.inr ⟨v, hv, hcp, hstep⟩)]
          by_cases hmem : kk ∈ rest
          · simp [hmem, ho, hcp, hv]
          · simp [hmem, ho, hcp, hv, hstep]
        · have hl : tlookup acc kk = tlookup own0 kk := by
            rcases hinv with hl | ⟨v2, _, hcp2, _⟩
            · exact hl
            · exact absurd hcp2 hcp
          have hstep : mixinStep o chain acc kk = acc := by
            rw [mixinStep_self o chain acc kk ho hv]
            refine jsAssign_of_not_canPut v ?_
            rw [canPut_congr chain kk hl]
            exact Bool.not_eq_true _ ▸ Bool.eq_false_iff.mpr hcp
          rw [hstep, ih _ hinv]
          simp [ho, hcp]
      · have hstep : mixinStep o chain acc kk = acc :=
          mixinStep_not_own o chain acc kk (by simpa using ho)
        rw [hstep, ih _ hinv]
        simp [ho]
    · have hpres : tlookup (mixinStep o chain acc kk) k = tlookup acc k :=
        mixinStep_other o chain acc kk k hkk

      have hinv2 : tlookup (mixinStep o chain acc kk) k = tlookup own0 k
          ∨ (∃ v, tlookup o.own k = some v ∧ canPut own0 chain k = true
              ∧ tlookup (mixinStep o chain acc kk) k = some ⟨v, true⟩) := by
        rcases hinv with hl | ⟨v, hv, hcp, hlk⟩
        · exact Or.inl (hpres.trans hl)
        · exact Or.inr ⟨v, hv, hcp, hpres.trans hlk⟩
      rw [ih _ hinv2]
      have hne : (k ∈ kk :: rest) ↔ k ∈ rest := by
        rw [List.mem_cons]
        constructor
        · rintro (h | h)
          · exact absurd h.symm hkk
          · exact h
        · exact Or.inr
      by_cases hmem : k ∈ rest <;> simp [hmem, hne, hpres]

/-- C7 counterexample: the claim states that mixin copies every own
enumerable member of the source onto the receiver.  Concretely, for a
receiver holding a non-writable own slot named a (as any slot defined
through the descriptor fallback or apply_methods is), the sloppy-mode
assignment self[i] = obj[i] of line 58 fails silently and the source
member named a is not copied: the receiver keeps its old value. -/
theorem claim_C7_cex :
    (mixinFn 0 (⟨[("a", ⟨"old", false⟩)], []⟩ : RecvObj String)
        (⟨[("a", "new")], []⟩ : SrcObj String)).2
      = [("a", ⟨"old", false⟩)]
    ∧ tlookup (mixinFn 0 (⟨[("a", ⟨"old", false⟩)], []⟩ : RecvObj String)
        (⟨[("a", "new")], []⟩ : SrcObj String)).2 "a"
      ≠ some ⟨"new", true⟩ := by
  refine ⟨by decide, by decide⟩

/-- C7 as amended: mixin returns the very same receiver reference, and
copies exactly those own enumerable members of the source whose name is
assignable on the receiver (no non-writable own or inherited slot of
that name; sloppy-mode assignment fails silently otherwise): for every
name, the resulting slot is the source own value (freshly writable)
when the source owns the name and the receiver slot is assignable, and
the receiver previous slot otherwise — in particular members the
source merely inherits are never copied. -/
theorem claim_C7 {M : Type} (selfId : Nat) (self : RecvObj M) (obj : SrcObj M)
    (k : String) :
    (mixinFn selfId self obj).1 = selfId
    ∧ tlookup (mixinFn selfId self obj).2 k
      = (if hasOwnProperty obj k = true ∧ canPut self.own self.chain k = true
         then (tlookup obj.own k).map (fun v => (⟨v, true⟩ : PropD M))
         else tlookup self.own k) := by
  refine ⟨rfl, ?_⟩
  show tlookup ((forInKeys obj).foldl (mixinStep obj self.chain) self.own) k = _
  rw [mixin_fold_lookup obj self.chain self.own k (forInKeys obj) self.own
    (Or.inl rfl)]
  by_cases ho : hasOwnProperty obj k = true
  · have hmem : k ∈ forInKeys obj := mem_forInKeys_of_own ho
    by_cases hcp : canPut self.own self.chain k = true
    · simp [ho, hcp, hmem]
    · simp [ho, hcp]
  · simp [ho]

theorem updProps_mem_other {M : Type} (h : HeapSt M) (i j : Nat)
    (f : PTable M → PTable M) (hij : j ≠ i) :
    (updProps h i f).mem j = h.mem j := by
  simp [updProps, hij]

theorem applyEntryH_mem {M : Type} (mid pid : Nat) (hh : HeapSt M)
    (kv : String × M) (j : Nat) (hm : j ≠ mid) (hp : j ≠ pid) :
    (applyEntryH mid pid hh kv).mem j = hh.mem j := by
  rw [applyEntryH, updProps_mem_other _ _ _ _ hp]
  split
  · exact updProps_mem_other _ _ _ _ hm
  · rfl

theorem applyEntriesH_mem {M : Type} (mid pid : Nat) (d : Table M) :
    ∀ (hh : HeapSt M) (j : Nat), j ≠ mid → j ≠ pid →
      (d.foldl (applyEntryH mid pid) hh).mem j = hh.mem j := by
  induction d with
  | nil => intro hh j _ _; rfl
  | cons kv rest ih =>
    intro hh j hm hp
    rw [List.foldl_cons, ih _ j hm hp, applyEntryH_mem mid pid hh kv j hm hp]

theorem applyDescsH_mem {M : Type} (mid pid : Nat) (descs : List (Table M)) :
    ∀ (hh : HeapSt M) (j : Nat), j ≠ mid → j ≠ pid →
      (applyDescsH mid pid hh descs).mem j = hh.mem j := by
  induction descs with
  | nil => intro hh j _ _; rfl
  | cons d rest ih =>
    intro hh j hm hp
    rw [applyDescsH, List.foldl_cons]
    have hrest := ih (d.foldl (applyEntryH mid pid) hh) j hm hp
    rw [applyDescsH] at hrest
    rw [hrest, applyEntriesH_mem mid pid d hh j hm hp]

/-- C10: one extend call never modifies any pre-existing heap object:
the fresh prototype and the fresh merged-method registry receive
identities at or above the old allocation frontier, and every object
below the frontier (in particular the parent prototype, the
Object.prototype object and the parent hidden registry) is unchanged
in the resulting heap — all property writes of the call land on the
two fresh allocations only (the blocked registry writes touch nothing
at all). -/
theorem claim_C10 {M : Type} (h : HeapSt M)
    (parentProtoId objectProtoId clsId : Nat) (descs : List (Table M))
    (i : Nat) (hi : i < h.next) :
    (extendH h parentProtoId objectProtoId clsId descs).2.1 = h.next + 1
    ∧ (extendH h parentProtoId objectProtoId clsId descs).2.2 = h.next
    ∧ (extendH h parentProtoId objectProtoId clsId descs).1.mem i = h.mem i := by
  have hne1 : i ≠ h.next := Nat.ne_of_lt hi
  have hne2 : i ≠ h.next + 1 :=
    Nat.ne_of_lt (Nat.lt_trans hi (Nat.lt_succ_self _))
  refine ⟨rfl, rfl, ?_⟩
  show (let p1 := allocObj h { protoRef := some objectProtoId, props := [] }
        let methodsId := p1.2
        let p2 := allocObj p1.1 { protoRef := some parentProtoId, props := [] }
        let protoId := p2.2
        let h3 := applyDescsH methodsId protoId p2.1 descs
        let ctor := ((hChainLookup h3 h3.next (some protoId) "init").map
          PropD.value).getD (PValue.classFn clsId)
        let h4 :=
          if hCanPutObj h3 h3.next protoId "constructor"
          then updProps h3 protoId (fun t => assign t "constructor" ⟨ctor, true⟩)
          else h3
        h4).mem i = h.mem i
  have halloc1 : (allocObj h { protoRef := some objectProtoId, props := [] }).1.mem i
      = h.mem i := by
    simp [allocObj, hne1]
  have halloc2 :
      (allocObj (allocObj h { protoRef := some objectProtoId, props := [] }).1
        { protoRef := some parentProtoId, props := [] }).1.mem i = h.mem i := by
    simp only [allocObj]
    simp only [allocObj] at halloc1
    simp [hne1, hne2, halloc1]
  have h3mem : (applyDescsH h.next (h.next + 1)
      (allocObj (allocObj h { protoRef := some objectProtoId, props := [] }).1
        { protoRef := some parentProtoId, props := [] }).1 descs).mem i
      = h.mem i := by
    rw [applyDescsH_mem _ _ descs _ i hne1 hne2, halloc2]
  show (if _ then updProps _ (h.next + 1) _ else _).mem i = h.mem i
  split
  · rw [updProps_mem_other _ _ _ _ hne2]
    exact h3mem
  · exact h3mem

/-- C10 witness: on a concrete one-object heap whose single
pre-existing object (identity 0) stands for Object.prototype and doubles
as the parent prototype, extending with one descriptor allocates
identities 1 and 2 for the fresh registry and prototype and leaves the
pre-existing object untouched. -/
theorem claim_C10_witness :
    (extendH (⟨fun _ => ⟨none, []⟩, 1⟩ : HeapSt String) 0 0 5 [[("a", "m")]]).2.1
      = 1 + 1
    ∧ (extendH (⟨fun _ => ⟨none, []⟩, 1⟩ : HeapSt String) 0 0 5 [[("a", "m")]]).2.2
      = 1
    ∧ (extendH (⟨fun _ => ⟨none, []⟩, 1⟩ : HeapSt String) 0 0 5 [[("a", "m")]]).1.mem 0
      = (⟨fun _ => ⟨none, []⟩, 1⟩ : HeapSt String).mem 0 :=
  claim_C10 (⟨fun _ => ⟨none, []⟩, 1⟩ : HeapSt String) 0 0 5 [[("a", "m")]] 0
    (by decide)

end MelonJS
